import Mathlib

/-!
# Verification development for the mcp-test unit-testing harness

Shallow embedding of the core of the repository:

* `src/src/runner.ts` — suite registration (`describe`), the sequential
  runner (`runTest`, `runSuite`, `runAllTests`);
* `expect.ts` (in the sources as `src/unnamed/part_001`) — the assertion
  matchers `toBe` (`Object.is` identity) and `toEqual` (`deepEqual`
  structural equality);
* `mock.ts` (second half of `src/unnamed/part_000`) — the `MockFunction`
  call recorder.

Effectful user code (test bodies, hooks) is modelled as explicit state
passing: an action takes a state `σ` and returns the updated state together
with `Option Err` — `some e` models a thrown JavaScript exception `e`
(JS exceptions do not roll back side effects, so the state is returned in
both outcomes).  `Date.now()` is modelled by a `clock : σ → Nat` read off
the current world state.  Error `message` strings are carried; other
formatting (stack traces, diffs) is outside the modelled claims.
-/

namespace MCPTest

/-- A captured JavaScript error: only the `message` field matters to the
claims under verification. -/
structure Err where
  message : String
deriving Repr, DecidableEq

/-- A user-supplied zero-argument action (test body or hook): takes the
world state, returns the mutated world state and `some e` if it threw. -/
def Action (σ : Type) : Type := σ → σ × Option Err

/-- Sequential execution of a hook list (`for (const hook of hooks) await hook()`):
runs hooks in order; a thrown error aborts the loop and is returned. -/
def runHooks {σ : Type} : List (Action σ) → σ → σ × Option Err
  | [], s => (s, none)
  | h :: hs, s =>
    match h s with
    | (s', none) => runHooks hs s'
    | (s', some e) => (s', some e)

/-- `Test` from `runner.ts` (lines 9–14). -/
structure Test (σ : Type) where
  name : String
  fn : Action σ
  skip : Bool
  only : Bool

/-- `TestResult` from `types.ts` as used by the runner: `assertions` is
always the empty list in the source, kept for shape fidelity. -/
structure TestResult where
  name : String
  passed : Bool
  error : Option Err
  duration : Nat
  assertions : List Unit
deriving Repr, DecidableEq

/-- The `catch` block of `runTest` (runner.ts lines 210–227): re-runs the
whole `afterEach` list inside a `try` whose errors are ignored (so the
cleanup stops at the first failing cleanup hook, per `runHooks`), then
returns a failing `TestResult` carrying the original error `e`. -/
def runTestCatch {σ : Type} (clock : σ → Nat) (afterEach : List (Action σ))
    (t : Test σ) (startTime : Nat) (s : σ) (e : Err) : σ × TestResult :=
  let s' := (runHooks afterEach s).1
  (s', ⟨t.name, false, some e, clock s' - startTime, []⟩)

/-- `runTest` (runner.ts lines 186–228).  The source receives the `Suite`
but reads only `suite.beforeEach` and `suite.afterEach`; those two hook
lists are passed directly.  Try-block order: before-each hooks, test body,
after-each hooks; any throw jumps to `runTestCatch`. -/
def runTest {σ : Type} (clock : σ → Nat) (beforeEach afterEach : List (Action σ))
    (t : Test σ) (s : σ) : σ × TestResult :=
  let startTime := clock s
  match runHooks beforeEach s with
  | (s1, some e) => runTestCatch clock afterEach t startTime s1 e
  | (s1, none) =>
    match t.fn s1 with
    | (s2, some e) => runTestCatch clock afterEach t startTime s2 e
    | (s2, none) =>
      match runHooks afterEach s2 with
      | (s3, some e) => runTestCatch clock afterEach t startTime s3 e
      | (s3, none) => (s3, ⟨t.name, true, none, clock s3 - startTime, []⟩)

/-- `Suite` from `runner.ts` (lines 16–26); recursive through the `suites`
field, so an inductive with a single constructor. -/
inductive Suite (σ : Type) : Type where
  | mk (name : String) (tests : List (Test σ))
       (beforeEach afterEach beforeAll afterAll : List (Action σ))
       (suites : List (Suite σ)) (skip only : Bool) : Suite σ

def Suite.name {σ : Type} : Suite σ → String
  | .mk n _ _ _ _ _ _ _ _ => n

def Suite.tests {σ : Type} : Suite σ → List (Test σ)
  | .mk _ ts _ _ _ _ _ _ _ => ts

def Suite.beforeEach {σ : Type} : Suite σ → List (Action σ)
  | .mk _ _ bE _ _ _ _ _ _ => bE

def Suite.afterEach {σ : Type} : Suite σ → List (Action σ)
  | .mk _ _ _ aE _ _ _ _ _ => aE

def Suite.beforeAll {σ : Type} : Suite σ → List (Action σ)
  | .mk _ _ _ _ bA _ _ _ _ => bA

def Suite.afterAll {σ : Type} : Suite σ → List (Action σ)
  | .mk _ _ _ _ _ aA _ _ _ => aA

def Suite.children {σ : Type} : Suite σ → List (Suite σ)
  | .mk _ _ _ _ _ _ cs _ _ => cs

def Suite.skip {σ : Type} : Suite σ → Bool
  | .mk _ _ _ _ _ _ _ sk _ => sk

def Suite.only {σ : Type} : Suite σ → Bool
  | .mk _ _ _ _ _ _ _ _ onl => onl

/-- `SuiteResult` (`TestSuiteResult` in the source). -/
structure SuiteResult where
  name : String
  tests : List TestResult
  passed : Nat
  failed : Nat
  skipped : Nat
  duration : Nat
deriving Repr, DecidableEq

/-- Only-mode check of `runSuite` (runner.ts line 244):
`suite.tests.some(t => t.only) || suite.suites.some(s => s.only)`. -/
def hasOnlyFlags {σ : Type} (tests : List (Test σ)) (suites : List (Suite σ)) : Bool :=
  tests.any (fun t => t.only) || suites.any (fun c => Suite.only c)

/-- The direct-tests loop of `runSuite` (runner.ts lines 247–264):
skip flag → record a passing result with duration 0; only-mode without
the only flag → contribute nothing; otherwise execute via `runTest`. -/
def runTests {σ : Type} (clock : σ → Nat) (beforeEach afterEach : List (Action σ))
    (hasOnly : Bool) : List (Test σ) → σ → σ × List TestResult
  | [], s => (s, [])
  | t :: ts, s =>
    if t.skip then
      let rest := runTests clock beforeEach afterEach hasOnly ts s
      (rest.1, ⟨t.name, true, none, 0, []⟩ :: rest.2)
    else if hasOnly && !t.only then
      runTests clock beforeEach afterEach hasOnly ts s
    else
      let step := runTest clock beforeEach afterEach t s
      let rest := runTests clock beforeEach afterEach hasOnly ts step.1
      (rest.1, step.2 :: rest.2)

mutual

/-- `runSuite` (runner.ts lines 233–296).  Composes the full name, runs
before-all hooks (a throw propagates as `Except.error`), computes the
only-mode flag, runs the direct tests, recurses into non-omitted child
suites splicing their flattened results, runs after-all hooks, and
aggregates the counts. -/
def runSuite {σ : Type} (clock : σ → Nat) (su : Suite σ) (parentName : String)
    (s : σ) : σ × Except Err SuiteResult :=
  match su with
  | .mk nm tests bE aE bA aA suites _ _ =>
    let fullName := if parentName = "" then nm else parentName ++ " > " ++ nm
    let startTime := clock s
    match runHooks bA s with
    | (s1, some e) => (s1, .error e)
    | (s1, none) =>
      let hasOnly := hasOnlyFlags tests suites
      let tr := runTests clock bE aE hasOnly tests s1
      match runNested clock hasOnly fullName suites tr.1 with
      | (s3, _, some e) => (s3, .error e)
      | (s3, nestedResults, none) =>
        match runHooks aA s3 with
        | (s4, some e) => (s4, .error e)
        | (s4, none) =>
          let allResults := tr.2 ++ nestedResults
          (s4, .ok ⟨fullName, allResults,
            (allResults.filter (fun r => r.passed)).length,
            (allResults.filter (fun r => !r.passed)).length,
            (tests.filter (fun t => t.skip)).length,
            clock s4 - startTime⟩)

/-- The nested-suites loop of `runSuite` (runner.ts lines 267–278): skipped
children and, in only-mode, children without the only flag are omitted;
otherwise the child is run recursively and its flattened test results are
spliced in.  A child's error (from its before-all/after-all hooks)
propagates, aborting the loop. -/
def runNested {σ : Type} (clock : σ → Nat) (hasOnly : Bool) (fullName : String) :
    List (Suite σ) → σ → σ × List TestResult × Option Err
  | [], s => (s, [], none)
  | c :: cs, s =>
    if Suite.skip c then runNested clock hasOnly fullName cs s
    else if hasOnly && !Suite.only c then runNested clock hasOnly fullName cs s
    else
      match runSuite clock c fullName s with
      | (s1, .error e) => (s1, [], some e)
      | (s1, .ok r) =>
        let rest := runNested clock hasOnly fullName cs s1
        (rest.1, r.tests ++ rest.2.1, rest.2.2)

end

/-- `runAllTests` (runner.ts lines 301–314): runs each non-skipped root
suite in order; an uncaught error from `runSuite` propagates, so the
remaining root suites are not executed. -/
def runAllTests {σ : Type} (clock : σ → Nat) :
    List (Suite σ) → σ → σ × Except Err (List SuiteResult)
  | [], s => (s, .ok [])
  | r :: rest, s =>
    if Suite.skip r then runAllTests clock rest s
    else
      match runSuite clock r "" s with
      | (s1, .error e) => (s1, .error e)
      | (s1, .ok res) =>
        match runAllTests clock rest s1 with
        | (s2, .error e) => (s2, .error e)
        | (s2, .ok results) => (s2, .ok (res :: results))

/-! ## Suite registration (`describe`, runner.ts lines 61–88)

In the source, `currentSuite` is a mutable reference into the suite tree
and `describe` mutates the referenced suite's `suites` array in place.  In
this value embedding the tree lives in `RegState.rootSuites` and the
`currentSuite` pointer is represented by the path of child indices leading
to the referenced suite (`none` models the JavaScript `null`). -/

/-- The suite constructed at the top of `describe` (runner.ts lines 62–72):
all lists empty, `skip` and `only` false. -/
def emptySuite {σ : Type} (name : String) : Suite σ :=
  .mk name [] [] [] [] [] [] false false

/-- Replace the element at an index of a list, leaving the list unchanged
when the index is out of range (models in-place mutation of one element). -/
def modifyIdx {α : Type} (f : α → α) : Nat → List α → List α
  | _, [] => []
  | 0, a :: as => f a :: as
  | n + 1, a :: as => a :: modifyIdx f n as

/-- Apply a function to the `suites` field of a suite. -/
def Suite.updateChildren {σ : Type} (f : List (Suite σ) → List (Suite σ)) :
    Suite σ → Suite σ
  | .mk n ts bE aE bA aA cs sk onl => .mk n ts bE aE bA aA (f cs) sk onl

/-- Dereference a current-suite path: `[i]` is `rootSuites[i]`, a longer
path descends through the `suites` fields. -/
def getSuiteAt {σ : Type} : List (Suite σ) → List Nat → Option (Suite σ)
  | _, [] => none
  | l, [i] => l[i]?
  | l, i :: rest =>
    match l[i]? with
    | some su => getSuiteAt (Suite.children su) rest
    | none => none

/-- Apply a function to the suite a path points at (mutation through the
`currentSuite` reference). -/
def updateSuiteAt {σ : Type} (f : Suite σ → Suite σ) :
    List (Suite σ) → List Nat → List (Suite σ)
  | l, [] => l
  | l, [i] => modifyIdx f i l
  | l, i :: rest => modifyIdx (Suite.updateChildren (fun cs => updateSuiteAt f cs rest)) i l

/-- The registration-phase state: the root registry (`rootSuites`) and the
`currentSuite` pointer, as a path (`none` = JavaScript `null`). -/
structure RegState (σ : Type) where
  rootSuites : List (Suite σ)
  currentPath : Option (List Nat)

/-- A definition action passed to `describe`: runs synchronously against
the registration state and may throw. -/
def RegAction (σ : Type) : Type := RegState σ → RegState σ × Option Err

/-- A definition action that registers nothing and returns normally. -/
def idRegAction {σ : Type} : RegAction σ := fun st => (st, none)

/-- A definition action that immediately throws `e`. -/
def throwRegAction {σ : Type} (e : Err) : RegAction σ := fun st => (st, some e)

/-- `describe` (runner.ts lines 61–88): constructs a fresh suite, appends
it to the current suite's children (or to the root registry when
`currentSuite` is null), saves the previous pointer, points `currentSuite`
at the new suite, runs the definition action, and in the `finally` block
unconditionally restores the saved pointer — also when the action throws,
whose error is then rethrown (modelled by returning it unchanged). -/
def describe {σ : Type} (name : String) (fn : RegAction σ) (st : RegState σ) :
    RegState σ × Option Err :=
  match st.currentPath with
  | none =>
    let st1 : RegState σ := ⟨st.rootSuites ++ [emptySuite name], some [st.rootSuites.length]⟩
    let out := fn st1
    (⟨out.1.rootSuites, none⟩, out.2)
  | some p =>
    let childCount :=
      match getSuiteAt st.rootSuites p with
      | some cur => (Suite.children cur).length
      | none => 0
    let st1 : RegState σ :=
      ⟨updateSuiteAt (Suite.updateChildren (fun cs => cs ++ [emptySuite name])) st.rootSuites p,
       some (p ++ [childCount])⟩
    let out := fn st1
    (⟨out.1.rootSuites, some p⟩, out.2)

/-! ## JavaScript values and the assertion matchers (`expect.ts`)

Numbers are modelled as integers plus the distinguished values `NaN` and
`-0` (positive zero is `num 0`); this captures exactly the distinctions
`Object.is` (the SameValue algorithm) makes on the values the claims are
about, without floating-point arithmetic.  Objects are modelled as
key-value lists.  `Object.is` on two objects is reference equality in
JavaScript; two separately written object literals are distinct references,
so the object/object case of `objectIs` is `false` (the same-reference case
is unobservable in a value embedding and would not change `deepEqual`,
which is `true` on it either way). -/

/-- A JavaScript value. -/
inductive JSVal : Type where
  | num : Int → JSVal
  | negZero : JSVal
  | nan : JSVal
  | str : String → JSVal
  | bool : Bool → JSVal
  | null : JSVal
  | undef : JSVal
  | obj : List (String × JSVal) → JSVal

/-- `Object.is` (SameValue): `NaN` equals itself, `-0` and `+0` differ,
primitives otherwise compare by value, objects by reference. -/
def objectIs : JSVal → JSVal → Bool
  | .nan, .nan => true
  | .negZero, .negZero => true
  | .num a, .num b => a == b
  | .str a, .str b => a == b
  | .bool a, .bool b => a == b
  | .null, .null => true
  | .undef, .undef => true
  | _, _ => false

/-- `ExpectImpl.toBe` (expect.ts lines 48–51) with `isNot = false`: the
assertion passes exactly when `Object.is(value, expected)` holds.  (The
thrown `AssertionError`'s message text is not modelled.) -/
def toBeCheck (value expected : JSVal) : Bool := objectIs value expected

/-- Own keys of an object, in insertion order (`Object.keys`). -/
def objKeys (l : List (String × JSVal)) : List String := l.map Prod.fst

/-- Property read `o[key]`: the value of the first binding of `key`. -/
def lookupKey (k : String) : List (String × JSVal) → Option JSVal
  | [] => none
  | (k', v) :: rest => if k' = k then some v else lookupKey k rest

mutual

/-- `ExpectImpl.deepEqual` (expect.ts lines 189–205): `Object.is`
short-circuit, then `false` if either side is `null` or not an object
(the catch-all arm — `objectIs` already returned `true` for equal
primitives), then same key count and, for every key of `a`, membership in
`b`'s keys with recursively deep-equal values (`deepEqualFields`). -/
def deepEqual (a b : JSVal) : Bool :=
  if objectIs a b then true
  else
    match a, b with
    | .obj xs, .obj ys =>
      if (objKeys xs).length = (objKeys ys).length then deepEqualFields xs ys else false
    | _, _ => false

/-- The `for (const key of keysA)` loop of `deepEqual`: for each binding of
`a`, the key must be among `b`'s keys (`lookupKey` succeeding) and the
looked-up values must be deep-equal.  The source iterates over
`Object.keys(a)`, which lists each key once; a JavaScript object cannot
hold duplicate keys, so iterating over the bindings is equivalent, and the
theorems assume duplicate-free key lists. -/
def deepEqualFields : List (String × JSVal) → List (String × JSVal) → Bool
  | [], _ => true
  | (k, v) :: rest, ys =>
    match lookupKey k ys with
    | none => false
    | some w => deepEqual v w && deepEqualFields rest ys

end

/-! ## The call recorder (`MockFunction`, mock.ts lines 133–226) -/

/-- The behavior closure `MockFunction.implementation` ends up holding:
absent (`undefined`), the `() => options.returnValue` closure, the
`() => { throw error; }` closure, or a caller-supplied function. -/
inductive Behavior : Type where
  | unset : Behavior
  | ret : JSVal → Behavior
  | throwErr : Err → Behavior
  | custom : (List JSVal → Except Err JSVal) → Behavior

/-- `MockToolOptions`: each field optional; the source's `throwError` field
(a message string or an error object; renamed `throwErrorOpt` because
`throwError` is reserved in Lean). -/
structure MockToolOptions where
  implementation : Option (List JSVal → Except Err JSVal)
  returnValue : Option JSVal
  throwErrorOpt : Option (String ⊕ Err)

/-- One entry of `MockFunction.calls`. -/
structure CallRecord where
  args : List JSVal
  timestamp : Nat
  result : Option JSVal
  error : Option Err

/-- The `MockFunction` state: recorded calls plus the secondary
return-value and error histories and the current behavior. -/
structure MockFunction where
  name : String
  implementation : Behavior
  calls : List CallRecord
  returnValues : List JSVal
  errors : List Err

/-- The `MockFunction` constructor (mock.ts lines 140–153): precedence
`implementation` over `returnValue` over `throwError`; the `throwError`
branch is guarded by JavaScript truthiness, so an empty message string
configures no behavior; a string is wrapped into an `Error` once. -/
def mkMockFunction (name : String) (options : Option MockToolOptions) : MockFunction :=
  match options with
  | none => ⟨name, .unset, [], [], []⟩
  | some o =>
    match o.implementation with
    | some f => ⟨name, .custom f, [], [], []⟩
    | none =>
      match o.returnValue with
      | some v => ⟨name, .ret v, [], [], []⟩
      | none =>
        match o.throwErrorOpt with
        | some (.inl msg) =>
          if msg = "" then ⟨name, .unset, [], [], []⟩ else ⟨name, .throwErr ⟨msg⟩, [], [], []⟩
        | some (.inr e) => ⟨name, .throwErr e, [], [], []⟩
        | none => ⟨name, .unset, [], [], []⟩

/-- Running the behavior closure: `this.implementation ? await
this.implementation(...args) : undefined`. -/
def runBehavior : Behavior → List JSVal → Except Err JSVal
  | .unset, _ => .ok .undef
  | .ret v, _ => .ok v
  | .throwErr e, _ => .error e
  | .custom f, args => f args

/-- `MockFunction.execute` (mock.ts lines 155–177): builds the call record,
runs the behavior; on success stores the result in the record, appends the
record to `calls` and the result to `returnValues`; on failure stores the
error in the record, appends the record to `calls` and the error to
`errors`, and rethrows. -/
def MockFunction.execute (m : MockFunction) (args : List JSVal) (now : Nat) :
    MockFunction × Except Err JSVal :=
  match runBehavior m.implementation args with
  | .ok v =>
    (⟨m.name, m.implementation, m.calls ++ [⟨args, now, some v, none⟩],
      m.returnValues ++ [v], m.errors⟩, .ok v)
  | .error e =>
    (⟨m.name, m.implementation, m.calls ++ [⟨args, now, none, some e⟩],
      m.returnValues, m.errors ++ [e]⟩, .error e)

/-! ## Spec-side description of the flattened result order

`specFlattenedNames` follows the spec's words (§4.2 steps 4 and 6, and §8
"test results preserve declaration order in the flattened output"): the
names of the suite's direct tests in declaration order — a skipped test
contributes its skip record, a test omitted by only-mode contributes
nothing — followed by the recursively flattened names of each non-omitted
direct child suite in declaration order.  It is compared against the
runner's actual output list. -/

mutual

def specFlattenedNames {σ : Type} : Suite σ → List String
  | .mk _ ts _ _ _ _ cs _ _ =>
    (ts.filterMap fun t =>
      if t.skip then some t.name
      else if hasOnlyFlags ts cs && !t.only then none
      else some t.name)
    ++ specFlattenedNamesList (hasOnlyFlags ts cs) cs

def specFlattenedNamesList {σ : Type} (ho : Bool) : List (Suite σ) → List String
  | [] => []
  | c :: cs =>
    (if Suite.skip c || (ho && !Suite.only c) then [] else specFlattenedNames c)
    ++ specFlattenedNamesList ho cs

end

/-! ## Concrete fixtures for witnesses and counterexamples

World state `Nat` is a side-effect counter; `clock0` a constant clock. -/

/-- A constant clock (all measured durations become 0). -/
def clock0 : Nat → Nat := fun _ => 0

/-- An action that increments the counter and returns normally. -/
def incAction : Action Nat := fun s => (s + 1, none)

/-- An action that returns normally without touching the counter. -/
def okAction : Action Nat := fun s => (s, none)

/-- An action that throws an error with the given message. -/
def failAction (msg : String) : Action Nat := fun s => (s, some ⟨msg⟩)

/-- The recorder of the spec's example: `mockTool('failing-tool', { throwError: 'boom' })`. -/
def boomMock : MockFunction :=
  mkMockFunction "failing-tool" (some ⟨none, none, some (Sum.inl "boom")⟩)

/-! ## Helper lemmas -/

/-- Processing a test whose skip flag is set prepends the skip record and
continues from an unchanged state; the test's body is irrelevant. -/
theorem runTests_skip_cons {σ : Type} (clock : σ → Nat) (bE aE : List (Action σ))
    (ho : Bool) (tn : String) (f : Action σ) (onl : Bool) (ts : List (Test σ)) (s : σ) :
    runTests clock bE aE ho (⟨tn, f, true, onl⟩ :: ts) s
      = ((runTests clock bE aE ho ts s).1,
         ⟨tn, true, none, 0, []⟩ :: (runTests clock bE aE ho ts s).2) := by
  simp [runTests]

/-- The body of a skipped test does not influence the direct-tests loop. -/
theorem runTests_skip_fn_irrelevant {σ : Type} (clock : σ → Nat)
    (bE aE : List (Action σ)) (ho : Bool) (tn : String) (f g : Action σ) (onl : Bool) :
    ∀ (l₁ l₂ : List (Test σ)) (s : σ),
      runTests clock bE aE ho (l₁ ++ ⟨tn, f, true, onl⟩ :: l₂) s
        = runTests clock bE aE ho (l₁ ++ ⟨tn, g, true, onl⟩ :: l₂) s := by
  intro l₁
  induction l₁ with
  | nil => intro l₂ s; simp [runTests_skip_cons]
  | cons t ts ih =>
    intro l₂ s
    simp only [List.cons_append, runTests]
    by_cases h1 : t.skip
    · simp [h1, ih]
    · by_cases h2 : ho && !t.only
      · simp [h1, h2, ih]
      · simp [h1, h2, ih]

/-- In only-mode, a direct test with neither flag set is dropped from the
loop: no result and no state change (so its body and hooks never run). -/
theorem runTests_removal {σ : Type} (clock : σ → Nat) (bE aE : List (Action σ))
    (t : Test σ) (h1 : t.skip = false) (h2 : t.only = false) :
    ∀ (l₁ l₂ : List (Test σ)) (s : σ),
      runTests clock bE aE true (l₁ ++ t :: l₂) s
        = runTests clock bE aE true (l₁ ++ l₂) s := by
  intro l₁
  induction l₁ with
  | nil => intro l₂ s; simp [runTests, h1, h2]
  | cons u us ih =>
    intro l₂ s
    simp only [List.cons_append, runTests]
    by_cases hu1 : u.skip
    · simp [hu1, ih]
    · by_cases hu2 : !u.only
      · simp [hu1, hu2, ih]
      · simp [hu1, hu2, ih]

/-- In only-mode, a direct child suite without the only flag is dropped
from the nested loop: no spliced results and no state change. -/
theorem runNested_removal {σ : Type} (clock : σ → Nat) (c : Suite σ)
    (hc : Suite.only c = false) :
    ∀ (c₁ c₂ : List (Suite σ)) (fn : String) (s : σ),
      runNested clock true fn (c₁ ++ c :: c₂) s
        = runNested clock true fn (c₁ ++ c₂) s := by
  intro c₁
  induction c₁ with
  | nil =>
    intro c₂ fn s
    by_cases h : Suite.skip c
    · simp [runNested, h]
    · simp [runNested, h, hc]
  | cons d ds ih =>
    intro c₂ fn s
    simp only [List.cons_append, runNested]
    by_cases h : Suite.skip d
    · simp [h, ih]
    · by_cases h2 : !Suite.only d
      · simp [h, h2, ih]
      · simp only [h, h2]
        simp only [Bool.false_eq_true, if_false, Bool.true_and, if_neg]
        rcases hr : runSuite clock d fn s with ⟨s1, res⟩
        cases res with
        | error e => simp
        | ok r => simp [ih]

/-- Only-mode is unaffected by removing a direct test whose only flag is
not set. -/
theorem hasOnlyFlags_test_removal {σ : Type} (l₁ l₂ : List (Test σ)) (t : Test σ)
    (cs : List (Suite σ)) (h : t.only = false) :
    hasOnlyFlags (l₁ ++ t :: l₂) cs = hasOnlyFlags (l₁ ++ l₂) cs := by
  simp [hasOnlyFlags, List.any_append, List.any_cons, h]

/-- Only-mode is unaffected by removing a direct child suite whose only
flag is not set. -/
theorem hasOnlyFlags_suite_removal {σ : Type} (ts : List (Test σ))
    (c₁ c₂ : List (Suite σ)) (c : Suite σ) (h : Suite.only c = false) :
    hasOnlyFlags ts (c₁ ++ c :: c₂) = hasOnlyFlags ts (c₁ ++ c₂) := by
  simp [hasOnlyFlags, List.any_append, List.any_cons, h]

/-- Congruence for `runSuite` over one suite level: two suites with the
same name, hooks and flags produce identical runs whenever their only-mode
flags, skipped counts, direct-test loops and nested loops agree. -/
theorem runSuite_mk_congr {σ : Type} (clock : σ → Nat) (nm : String)
    (ts ts' : List (Test σ)) (bE aE bA aA : List (Action σ))
    (cs cs' : List (Suite σ)) (sk so : Bool) (pn : String) (s : σ)
    (hho : hasOnlyFlags ts cs = hasOnlyFlags ts' cs')
    (hskip : ((ts.filter fun t => t.skip).length = ((ts'.filter fun t => t.skip)).length))
    (htests : ∀ s' : σ, runTests clock bE aE (hasOnlyFlags ts' cs') ts s'
      = runTests clock bE aE (hasOnlyFlags ts' cs') ts' s')
    (hnested : ∀ (fn : String) (s' : σ),
      runNested clock (hasOnlyFlags ts' cs') fn cs s'
        = runNested clock (hasOnlyFlags ts' cs') fn cs' s') :
    runSuite clock (.mk nm ts bE aE bA aA cs sk so) pn s
      = runSuite clock (.mk nm ts' bE aE bA aA cs' sk so) pn s := by
  simp only [runSuite]
  rw [hho]
  rcases hba : runHooks bA s with ⟨s1, e1⟩
  cases e1 with
  | some e => simp
  | none => simp [htests, hnested, hskip]

/-! ## Claim theorems -/

/-- C7 counterexample.  The claim states `expect(0).toBe(-0)` passes, but
`toBe` uses `Object.is` (expect.ts line 49), which distinguishes positive
and negative zero: the assertion on `0` versus `-0` fails. -/
theorem toBe_pos_neg_zero_counterexample :
    toBeCheck (JSVal.num 0) JSVal.negZero = false := rfl

/-- C7 (amended): the identity-equal matcher `toBe` treats `NaN` as equal
to itself, and distinguishes positive zero from negative zero
(`expect(0).toBe(-0)` and `expect(-0).toBe(0)` both fail) — the SameValue
semantics of `Object.is`. -/
theorem toBe_identity_semantics :
    toBeCheck JSVal.nan JSVal.nan = true
    ∧ toBeCheck (JSVal.num 0) JSVal.negZero = false
    ∧ toBeCheck JSVal.negZero (JSVal.num 0) = false
    ∧ toBeCheck JSVal.negZero JSVal.negZero = true :=
  ⟨rfl, rfl, rfl, rfl⟩

/-- C5: a test whose skip flag is set is recorded as
`TestResult{passed := true, duration := 0, no failure}`, the loop state is
passed on unchanged, and the test's body (quantified `f`, `g`) influences
nothing — so neither the body nor any before-each/after-each hook runs for
it, at the loop level (first conjunct) and under a whole suite run (second
conjunct). -/
theorem skipped_test_recorded_not_executed {σ : Type} (clock : σ → Nat)
    (bE aE bA aA : List (Action σ)) (ho : Bool) (nm tn : String) (f g : Action σ)
    (onl sk so : Bool) (l₁ l₂ ts : List (Test σ)) (cs : List (Suite σ))
    (pn : String) (s : σ) :
    (runTests clock bE aE ho (⟨tn, f, true, onl⟩ :: ts) s
      = ((runTests clock bE aE ho ts s).1,
         ⟨tn, true, none, 0, []⟩ :: (runTests clock bE aE ho ts s).2))
    ∧ (runSuite clock (.mk nm (l₁ ++ ⟨tn, f, true, onl⟩ :: l₂) bE aE bA aA cs sk so) pn s
      = runSuite clock (.mk nm (l₁ ++ ⟨tn, g, true, onl⟩ :: l₂) bE aE bA aA cs sk so) pn s) := by
  refine ⟨runTests_skip_cons clock bE aE ho tn f onl ts s, ?_⟩
  apply runSuite_mk_congr
  · simp [hasOnlyFlags, List.any_append, List.any_cons]
  · simp [List.filter_append, List.filter_cons]
  · intro s'; exact runTests_skip_fn_irrelevant clock bE aE _ tn f g onl l₁ l₂ s'
  · intro fn s'; rfl

/-- C3 counterexample.  Test body throws "boom"; the after-each list is
`[failAction "x", incAction]`.  The claim states all after-each hooks still
run, so the counter-incrementing second hook would leave the counter at 1
(second conjunct computes that state); but the catch-path cleanup wraps the
whole loop in one try, so the first hook's throw skips the second hook and
the counter stays 0. -/
theorem runTest_cleanup_not_all_hooks_counterexample :
    runTest clock0 [] [failAction "x", incAction] ⟨"t", failAction "boom", false, false⟩ 0
      = (0, ⟨"t", false, some ⟨"boom"⟩, 0, []⟩)
    ∧ (incAction ((failAction "x") 0).1).1 = 1 :=
  ⟨rfl, rfl⟩

/-- C3 (amended): when a before-each hook or the test body fails, the
after-each hooks are run afterwards in order up to the first hook that
itself fails during this cleanup pass (`runHooks` stops at the first
error); any cleanup error is discarded, and the TestResult has
`passed := false` and carries the original failure, never a cleanup
error. -/
theorem runTest_failure_keeps_original_error {σ : Type} (clock : σ → Nat)
    (bE aE : List (Action σ)) (t : Test σ) (s s1 s2 : σ) (e : Err) :
    (runHooks bE s = (s1, some e) →
      runTest clock bE aE t s
        = ((runHooks aE s1).1,
           ⟨t.name, false, some e, clock (runHooks aE s1).1 - clock s, []⟩))
    ∧ (runHooks bE s = (s1, none) → t.fn s1 = (s2, some e) →
      runTest clock bE aE t s
        = ((runHooks aE s2).1,
           ⟨t.name, false, some e, clock (runHooks aE s2).1 - clock s, []⟩)) := by
  constructor
  · intro h1
    simp [runTest, h1, runTestCatch]
  · intro h1 h2
    simp [runTest, h1, h2, runTestCatch]

/-- Witness for C3: a failing before-each hook (first conjunct) and a
failing body (second conjunct); in both runs the after-each `incAction`
still executes (final counter 1) and the result carries the original
error. -/
theorem runTest_failure_keeps_original_error_witness :
    runTest clock0 [failAction "b"] [incAction] ⟨"w1", okAction, false, false⟩ 0
      = (1, ⟨"w1", false, some ⟨"b"⟩, 0, []⟩)
    ∧ runTest clock0 [] [incAction] ⟨"w2", failAction "c", false, false⟩ 0
      = (1, ⟨"w2", false, some ⟨"c"⟩, 0, []⟩) :=
  ⟨(runTest_failure_keeps_original_error clock0 [failAction "b"] [incAction]
      ⟨"w1", okAction, false, false⟩ 0 0 0 ⟨"b"⟩).1 rfl,
   (runTest_failure_keeps_original_error clock0 [] [incAction]
      ⟨"w2", failAction "c", false, false⟩ 0 0 0 ⟨"c"⟩).2 rfl rfl⟩

/-- C10 counterexample.  Body succeeds; after-each list is
`[failAction "x", incAction]`.  The claim states the entire after-each list
is executed a second time in the catch-path cleanup, so `incAction` would
run (second conjunct computes the counter it would produce); but the
cleanup pass hits `failAction "x"` first and stops, so `incAction` never
runs in either pass and the counter stays 0. -/
theorem afterEach_second_pass_counterexample :
    runTest clock0 [] [failAction "x", incAction] ⟨"t2", okAction, false, false⟩ 0
      = (0, ⟨"t2", false, some ⟨"x"⟩, 0, []⟩)
    ∧ (incAction ((failAction "x") 0).1).1 = 1 :=
  ⟨rfl, rfl⟩

/-- C10 (amended): if the body and all before-each hooks succeed but the
after-each pass fails at some hook, the test is recorded as failed with
that hook's error, and the catch-path cleanup re-runs the after-each list
from the beginning (from the state the first pass reached), stopping at the
first hook that fails in that pass with its error discarded — so the hooks
the cleanup pass reaches, including those preceding the originally failing
hook, run a second time. -/
theorem afterEach_failure_reruns_cleanup {σ : Type} (clock : σ → Nat)
    (bE aE : List (Action σ)) (t : Test σ) (s s1 s2 s3 : σ) (e : Err) :
    runHooks bE s = (s1, none) → t.fn s1 = (s2, none) →
    runHooks aE s2 = (s3, some e) →
    runTest clock bE aE t s
      = ((runHooks aE s3).1,
         ⟨t.name, false, some e, clock (runHooks aE s3).1 - clock s, []⟩) := by
  intro h1 h2 h3
  simp [runTest, h1, h2, h3, runTestCatch]

/-- Witness for C10: after-each `[incAction, failAction "y"]` with a
passing body: the first pass increments to 1 then fails; the cleanup pass
re-runs from the start, incrementing to 2 — the hook preceding the failing
one ran twice — and the result carries the after-each error "y". -/
theorem afterEach_failure_reruns_cleanup_witness :
    runTest clock0 [] [incAction, failAction "y"] ⟨"w3", okAction, false, false⟩ 0
      = (2, ⟨"w3", false, some ⟨"y"⟩, 0, []⟩) :=
  afterEach_failure_reruns_cleanup clock0 [] [incAction, failAction "y"]
    ⟨"w3", okAction, false, false⟩ 0 0 0 1 ⟨"y"⟩ rfl rfl rfl

/-- C9: a recorder configured with `throwError: "boom"` holds the throwing
behavior with empty histories (first conjunct); every invocation of a
recorder with that behavior fails with message "boom", growing both the
call list and the error history by one and leaving the behavior in place
(second conjunct); after one invocation of the fresh recorder both the
error history and the call list have length 1 (third conjunct); and every
`execute` appends exactly one CallRecord in which exactly one of
result/error is populated, matching the outcome (fourth conjunct). -/
theorem mock_throwError_records_failure :
    (boomMock.implementation = Behavior.throwErr ⟨"boom"⟩
      ∧ boomMock.calls = [] ∧ boomMock.errors = [])
    ∧ (∀ (m : MockFunction) (args : List JSVal) (now : Nat),
        m.implementation = Behavior.throwErr ⟨"boom"⟩ →
        (m.execute args now).2 = Except.error ⟨"boom"⟩
        ∧ (m.execute args now).1.calls.length = m.calls.length + 1
        ∧ (m.execute args now).1.errors.length = m.errors.length + 1
        ∧ (m.execute args now).1.implementation = m.implementation)
    ∧ ((boomMock.execute [] 0).2 = Except.error ⟨"boom"⟩
        ∧ (boomMock.execute [] 0).1.errors.length = 1
        ∧ (boomMock.execute [] 0).1.calls.length = 1)
    ∧ (∀ (m : MockFunction) (args : List JSVal) (now : Nat),
        ∃ c : CallRecord, (m.execute args now).1.calls = m.calls ++ [c]
          ∧ c.args = args ∧ c.timestamp = now
          ∧ (match (m.execute args now).2 with
             | .ok v => c.result = some v ∧ c.error = none
             | .error e => c.error = some e ∧ c.result = none)) := by
  refine ⟨⟨rfl, rfl, rfl⟩, ?_, ⟨rfl, rfl, rfl⟩, ?_⟩
  · intro m args now h
    simp [MockFunction.execute, h, runBehavior]
  · intro m args now
    rcases hb : runBehavior m.implementation args with e | v
    · exact ⟨⟨args, now, none, some e⟩, by simp [MockFunction.execute, hb]⟩
    · exact ⟨⟨args, now, some v, none⟩, by simp [MockFunction.execute, hb]⟩

/-- Witness for C9: invoking the fresh "boom" recorder at explicit
arguments fails with message "boom". -/
theorem mock_throwError_records_failure_witness :
    (boomMock.execute [JSVal.num 1] 5).2 = Except.error ⟨"boom"⟩ :=
  (mock_throwError_records_failure.2.1 boomMock [JSVal.num 1] 5 rfl).1

/-- C1: only-mode is active exactly when some direct child test or some
direct child suite has its only flag set (first conjunct, immediate
children only); when it is active, a direct test with neither the only nor
the skip flag contributes nothing to the suite run — removing it changes
neither the state nor the result list, so it is never executed (second
conjunct) — and a direct child suite without the only flag is omitted
entirely (third conjunct). -/
theorem only_mode_omits_non_only_siblings :
    (∀ (σ : Type) (ts : List (Test σ)) (cs : List (Suite σ)),
      hasOnlyFlags ts cs = true
        ↔ ((∃ t ∈ ts, t.only = true) ∨ (∃ c ∈ cs, Suite.only c = true)))
    ∧ (∀ (σ : Type) (clock : σ → Nat) (nm : String) (l₁ l₂ : List (Test σ))
        (t : Test σ) (bE aE bA aA : List (Action σ)) (cs : List (Suite σ))
        (sk so : Bool) (pn : String) (s : σ),
      hasOnlyFlags (l₁ ++ t :: l₂) cs = true → t.only = false → t.skip = false →
      runSuite clock (.mk nm (l₁ ++ t :: l₂) bE aE bA aA cs sk so) pn s
        = runSuite clock (.mk nm (l₁ ++ l₂) bE aE bA aA cs sk so) pn s)
    ∧ (∀ (σ : Type) (clock : σ → Nat) (nm : String) (ts : List (Test σ))
        (bE aE bA aA : List (Action σ)) (c₁ c₂ : List (Suite σ)) (c : Suite σ)
        (sk so : Bool) (pn : String) (s : σ),
      hasOnlyFlags ts (c₁ ++ c :: c₂) = true → Suite.only c = false →
      runSuite clock (.mk nm ts bE aE bA aA (c₁ ++ c :: c₂) sk so) pn s
        = runSuite clock (.mk nm ts bE aE bA aA (c₁ ++ c₂) sk so) pn s) := by
  refine ⟨?_, ?_, ?_⟩
  · intro σ ts cs
    simp [hasOnlyFlags, List.any_eq_true]
  · intro σ clock nm l₁ l₂ t bE aE bA aA cs sk so pn s hho ho hs
    have hho2 : hasOnlyFlags (l₁ ++ l₂) cs = true :=
      (hasOnlyFlags_test_removal l₁ l₂ t cs ho) ▸ hho
    apply runSuite_mk_congr
    · exact hasOnlyFlags_test_removal l₁ l₂ t cs ho
    · simp [List.filter_append, List.filter_cons, hs]
    · intro s'
      rw [hho2]
      exact runTests_removal clock bE aE t hs ho l₁ l₂ s'
    · intro fn s'; rfl
  · intro σ clock nm ts bE aE bA aA c₁ c₂ c sk so pn s hho ho
    have hho2 : hasOnlyFlags ts (c₁ ++ c₂) = true :=
      (hasOnlyFlags_suite_removal ts c₁ c₂ c ho) ▸ hho
    apply runSuite_mk_congr
    · exact hasOnlyFlags_suite_removal ts c₁ c₂ c ho
    · rfl
    · intro s'; rfl
    · intro fn s'
      rw [hho2]
      exact runNested_removal clock c ho c₁ c₂ fn s'

/-- Witness for C1: in a suite whose first test has the only flag, the
plain second test contributes nothing (first conjunct), and with an
only-flagged first child suite, the plain second child suite is omitted
entirely (second conjunct). -/
theorem only_mode_omits_non_only_siblings_witness :
    runSuite clock0
        (.mk "S" [⟨"a", incAction, false, true⟩, ⟨"b", incAction, false, false⟩]
          [] [] [] [] [] false false) "" 0
      = runSuite clock0
        (.mk "S" [⟨"a", incAction, false, true⟩] [] [] [] [] [] false false) "" 0
    ∧ runSuite clock0
        (.mk "P" [] [] [] [] []
          [.mk "c1" [] [] [] [] [] [] false true,
           .mk "c2" [⟨"x", incAction, false, false⟩] [] [] [] [] [] false false]
          false false) "" 0
      = runSuite clock0
        (.mk "P" [] [] [] [] [] [.mk "c1" [] [] [] [] [] [] false true] false false) "" 0 :=
  ⟨only_mode_omits_non_only_siblings.2.1 Nat clock0 "S"
      [⟨"a", incAction, false, true⟩] [] ⟨"b", incAction, false, false⟩
      [] [] [] [] [] false false "" 0 rfl rfl rfl,
   only_mode_omits_non_only_siblings.2.2 Nat clock0 "P" [] [] [] [] []
      [.mk "c1" [] [] [] [] [] [] false true] []
      (.mk "c2" [⟨"x", incAction, false, false⟩] [] [] [] [] [] false false)
      false false "" 0 rfl rfl⟩

/-- C4: a before-all hook failure makes `runSuite` return the error
unhandled, with no failing TestResult manufactured (first conjunct); an
after-all hook failure does the same after tests and nested suites ran
(second conjunct); and `runAllTests` lets the error out of the top-level
call, with the remaining root suites never executed — the outcome is
independent of `rest` (third conjunct). -/
theorem hook_failure_propagates_uncaught :
    (∀ (σ : Type) (clock : σ → Nat) (nm : String) (ts : List (Test σ))
        (bE aE bA aA : List (Action σ)) (cs : List (Suite σ)) (sk so : Bool)
        (pn : String) (s s1 : σ) (e : Err),
      runHooks bA s = (s1, some e) →
      runSuite clock (.mk nm ts bE aE bA aA cs sk so) pn s = (s1, Except.error e))
    ∧ (∀ (σ : Type) (clock : σ → Nat) (nm : String) (ts : List (Test σ))
        (bE aE bA aA : List (Action σ)) (cs : List (Suite σ)) (sk so : Bool)
        (pn : String) (s s1 s3 s4 : σ) (rs : List TestResult) (e : Err),
      runHooks bA s = (s1, none) →
      runNested clock (hasOnlyFlags ts cs) (if pn = "" then nm else pn ++ " > " ++ nm)
          cs (runTests clock bE aE (hasOnlyFlags ts cs) ts s1).1 = (s3, rs, none) →
      runHooks aA s3 = (s4, some e) →
      runSuite clock (.mk nm ts bE aE bA aA cs sk so) pn s = (s4, Except.error e))
    ∧ (∀ (σ : Type) (clock : σ → Nat) (r : Suite σ) (rest : List (Suite σ))
        (s s1 : σ) (e : Err),
      Suite.skip r = false →
      runSuite clock r "" s = (s1, Except.error e) →
      runAllTests clock (r :: rest) s = (s1, Except.error e)) := by
  refine ⟨?_, ?_, ?_⟩
  · intro σ clock nm ts bE aE bA aA cs sk so pn s s1 e h
    simp [runSuite, h]
  · intro σ clock nm ts bE aE bA aA cs sk so pn s s1 s3 s4 rs e h1 h2 h3
    simp [runSuite, h1, h2, h3]
  · intro σ clock r rest s s1 e hskip hrun
    simp [runAllTests, hskip, hrun]

/-- Witness for C4: a failing before-all hook aborts its suite run with the
error (first conjunct); a failing after-all hook does the same (second
conjunct); and with a second root suite queued after the failing one,
`runAllTests` returns the error with the second suite's side effects never
performed — the counter stays 0 (third conjunct). -/
theorem hook_failure_propagates_uncaught_witness :
    runSuite clock0 (.mk "s" [] [] [] [failAction "fatal"] [] [] false false) "" 0
      = (0, Except.error ⟨"fatal"⟩)
    ∧ runSuite clock0 (.mk "s2" [] [] [] [] [failAction "fatal2"] [] false false) "" 0
      = (0, Except.error ⟨"fatal2"⟩)
    ∧ runAllTests clock0
        [.mk "s" [] [] [] [failAction "fatal"] [] [] false false,
         .mk "other" [⟨"t", incAction, false, false⟩] [] [] [] [] [] false false] 0
      = (0, Except.error ⟨"fatal"⟩) :=
  ⟨hook_failure_propagates_uncaught.1 Nat clock0 "s" [] [] [] [failAction "fatal"] []
      [] false false "" 0 0 ⟨"fatal"⟩ rfl,
   hook_failure_propagates_uncaught.2.1 Nat clock0 "s2" [] [] [] [] [failAction "fatal2"]
      [] false false "" 0 0 0 0 [] ⟨"fatal2"⟩ rfl (by simp [runNested, runTests]) rfl,
   hook_failure_propagates_uncaught.2.2 Nat clock0
      (.mk "s" [] [] [] [failAction "fatal"] [] [] false false)
      [.mk "other" [⟨"t", incAction, false, false⟩] [] [] [] [] [] false false]
      0 0 ⟨"fatal"⟩ rfl
      (hook_failure_propagates_uncaught.1 Nat clock0 "s" [] [] [] [failAction "fatal"]
        [] [] false false "" 0 0 ⟨"fatal"⟩ rfl)⟩

/-- Reading back a modified index. -/
theorem modifyIdx_getElem_self {α : Type} (f : α → α) :
    ∀ (i : Nat) (l : List α), (modifyIdx f i l)[i]? = (l[i]?).map f := by
  intro i
  induction i with
  | zero => intro l; cases l <;> simp [modifyIdx]
  | succ n ih => intro l; cases l <;> simp [modifyIdx, ih]

/-- Modifying one index leaves the other entries unchanged. -/
theorem modifyIdx_getElem_ne {α : Type} (f : α → α) :
    ∀ (i j : Nat) (l : List α), i ≠ j → (modifyIdx f i l)[j]? = l[j]? := by
  intro i
  induction i with
  | zero =>
    intro j l h
    cases l with
    | nil => simp [modifyIdx]
    | cons a as =>
      cases j with
      | zero => exact absurd rfl h
      | succ m => simp [modifyIdx]
  | succ n ih =>
    intro j l h
    cases l with
    | nil => simp [modifyIdx]
    | cons a as =>
      cases j with
      | zero => simp [modifyIdx]
      | succ m => simp [modifyIdx, ih m as (by omega)]

/-- The children of an updated suite are the updated children. -/
theorem children_updateChildren {σ : Type} (g : List (Suite σ) → List (Suite σ))
    (su : Suite σ) :
    Suite.children (Suite.updateChildren g su) = g (Suite.children su) := by
  cases su
  rfl

/-- Dereferencing a path after updating at the same path yields the updated
suite. -/
theorem getSuiteAt_updateSuiteAt {σ : Type} (f : Suite σ → Suite σ) :
    ∀ (p : List Nat) (l : List (Suite σ)),
      getSuiteAt (updateSuiteAt f l p) p = (getSuiteAt l p).map f := by
  intro p
  induction p with
  | nil => intro l; simp [getSuiteAt, updateSuiteAt]
  | cons i rest ih =>
    intro l
    cases rest with
    | nil => simp [getSuiteAt, updateSuiteAt, modifyIdx_getElem_self]
    | cons j rest' =>
      simp only [getSuiteAt, updateSuiteAt, modifyIdx_getElem_self]
      cases h : l[i]? with
      | none => simp
      | some su => simp [children_updateChildren, ih]

/-- Appending to a list and reading the appended slot. -/
theorem getElem_append_singleton {α : Type} (a : α) :
    ∀ (l : List α), (l ++ [a])[l.length]? = some a := by
  intro l
  induction l with
  | nil => rfl
  | cons b bs ih => simp [ih]

/-- Modifying the appended slot of an extended list. -/
theorem modifyIdx_append_singleton {α : Type} (f : α → α) (a : α) :
    ∀ (l : List α), modifyIdx f l.length (l ++ [a]) = l ++ [f a] := by
  intro l
  induction l with
  | nil => rfl
  | cons b bs ih => simp [modifyIdx, ih]

/-- C6: a `describe` call restores the previous current-suite pointer on
every exit path — after the call the pointer equals its value before the
call for every definition action, including a throwing one whose error is
rethrown (first two conjuncts); the new suite is appended to the root
registry when there is no current suite, also when the action throws
(third conjunct), or to the current suite's children (fourth conjunct);
and the new suite is the current suite while the definition action runs: a
nested `describe` inside the action attaches its suite to the new suite's
children (fifth conjunct). -/
theorem describe_registers_and_restores {σ : Type} (st : RegState σ) (nm : String)
    (fn : RegAction σ) (e : Err) :
    ((describe nm fn st).1.currentPath = st.currentPath)
    ∧ ((describe nm (throwRegAction e) st).2 = some e)
    ∧ (st.currentPath = none →
        (describe nm idRegAction st).1.rootSuites = st.rootSuites ++ [emptySuite nm]
        ∧ (describe nm (throwRegAction e) st).1.rootSuites
            = st.rootSuites ++ [emptySuite nm])
    ∧ (∀ (p : List Nat) (cur : Suite σ), st.currentPath = some p →
        getSuiteAt st.rootSuites p = some cur →
        getSuiteAt (describe nm idRegAction st).1.rootSuites p
          = some (Suite.updateChildren (fun cs => cs ++ [emptySuite nm]) cur))
    ∧ (st.currentPath = none →
        (describe nm (fun st' => describe "inner" idRegAction st') st).1.rootSuites
          = st.rootSuites ++ [Suite.mk nm [] [] [] [] [] [emptySuite "inner"] false false]) := by
  refine ⟨?_, ?_, ?_, ?_, ?_⟩
  · cases h : st.currentPath <;> simp [describe, h]
  · cases h : st.currentPath <;> simp [describe, h, throwRegAction]
  · intro h
    constructor <;> simp [describe, h, idRegAction, throwRegAction]
  · intro p cur h1 h2
    simp [describe, h1, idRegAction, getSuiteAt_updateSuiteAt, h2]
  · intro h
    simp [describe, h, idRegAction, getSuiteAt, getElem_append_singleton,
      updateSuiteAt, modifyIdx_append_singleton, emptySuite, Suite.updateChildren,
      Suite.children]

/-- Witness for C6: registering under no current suite appends to the root
registry and leaves the pointer null; under current suite `[0]` the new
suite lands in that suite's children and the pointer is restored; a
throwing definition action rethrows while the registration stays. -/
theorem describe_registers_and_restores_witness :
    (describe "s" idRegAction (⟨[], none⟩ : RegState Nat)).1.currentPath = none
    ∧ (describe "s" idRegAction (⟨[], none⟩ : RegState Nat)).1.rootSuites
        = [emptySuite "s"]
    ∧ getSuiteAt
        (describe "s" idRegAction
          (⟨[emptySuite "r"], some [0]⟩ : RegState Nat)).1.rootSuites [0]
        = some (Suite.mk "r" [] [] [] [] [] [emptySuite "s"] false false)
    ∧ (describe "s" (throwRegAction ⟨"bad"⟩) (⟨[], none⟩ : RegState Nat)).2
        = some ⟨"bad"⟩
    ∧ (describe "s" (throwRegAction ⟨"bad"⟩)
        (⟨[emptySuite "r"], some [0]⟩ : RegState Nat)).1.currentPath = some [0] := by
  refine ⟨(describe_registers_and_restores ⟨[], none⟩ "s" idRegAction ⟨"bad"⟩).1,
    ((describe_registers_and_restores ⟨[], none⟩ "s" idRegAction ⟨"bad"⟩).2.2.1 rfl).1,
    ?_,
    (describe_registers_and_restores ⟨[], none⟩ "s" idRegAction ⟨"bad"⟩).2.1,
    (describe_registers_and_restores ⟨[emptySuite "r"], some [0]⟩ "s"
      (throwRegAction ⟨"bad"⟩) ⟨"bad"⟩).1⟩
  have h := (describe_registers_and_restores
    (⟨[emptySuite "r"], some [0]⟩ : RegState Nat) "s" idRegAction ⟨"bad"⟩).2.2.2.1
    [0] (emptySuite "r") rfl rfl
  exact h

/-- A successful property lookup locates a binding of the object. -/
theorem lookupKey_mem : ∀ (l : List (String × JSVal)) (k : String) (v : JSVal),
    lookupKey k l = some v → (k, v) ∈ l := by
  intro l
  induction l with
  | nil => intro k v h; simp [lookupKey] at h
  | cons kv rest ih =>
    intro k v h
    rcases kv with ⟨k', v'⟩
    by_cases hk : k' = k
    · subst hk
      simp [lookupKey] at h
      subst h
      exact List.mem_cons_self _ _
    · simp [lookupKey, hk] at h
      exact List.mem_cons_of_mem _ (ih k v h)

/-- A lookup succeeds exactly when the key is an own key. -/
theorem lookupKey_isSome_iff : ∀ (l : List (String × JSVal)) (k : String),
    (lookupKey k l).isSome = true ↔ k ∈ objKeys l := by
  intro l
  induction l with
  | nil => intro k; simp [lookupKey, objKeys]
  | cons kv rest ih =>
    intro k
    rcases kv with ⟨k', v'⟩
    by_cases hk : k' = k
    · subst hk; simp [lookupKey, objKeys]
    · simp only [lookupKey, if_neg hk, objKeys, List.map_cons, List.mem_cons]
      rw [show (objKeys rest = List.map Prod.fst rest) from rfl] at ih
      rw [ih k]
      constructor
      · intro h; exact Or.inr h
      · rintro (h | h)
        · exact absurd h.symm hk
        · exact h

/-- With duplicate-free keys (always the case for a JavaScript object), a
binding is found by lookup. -/
theorem mem_lookupKey_nodup : ∀ (l : List (String × JSVal)) (k : String) (v : JSVal),
    (objKeys l).Nodup → (k, v) ∈ l → lookupKey k l = some v := by
  intro l
  induction l with
  | nil => intro k v _ h; simp at h
  | cons kv rest ih =>
    intro k v hnd hmem
    rcases kv with ⟨k', v'⟩
    simp only [objKeys, List.map_cons, List.nodup_cons] at hnd
    rcases List.mem_cons.mp hmem with heq | htail
    · injection heq with h1 h2
      subst h1; subst h2
      simp [lookupKey]
    · by_cases hk : k' = k
      · subst hk
        exact absurd (List.mem_map.mpr ⟨(k', v), htail, rfl⟩) hnd.1
      · simp only [lookupKey, if_neg hk]
        exact ih k v hnd.2 htail

/-- Soundness of the key loop of `deepEqual`: success means every binding
of the left object has a deep-equal counterpart under the same key. -/
theorem deepEqualFields_sound : ∀ (xs ys : List (String × JSVal)),
    deepEqualFields xs ys = true →
    ∀ (k : String) (v : JSVal), (k, v) ∈ xs →
      ∃ w, lookupKey k ys = some w ∧ deepEqual v w = true := by
  intro xs
  induction xs with
  | nil => intro ys _ k v h; simp at h
  | cons kv rest ih =>
    intro ys h k v hmem
    rcases kv with ⟨k', v'⟩
    simp only [deepEqualFields] at h
    rcases hl : lookupKey k' ys with _ | w
    · rw [hl] at h; simp at h
    · rw [hl] at h
      simp only [Bool.and_eq_true] at h
      rcases List.mem_cons.mp hmem with heq | htail
      · injection heq with h1 h2
        subst h1; subst h2
        exact ⟨w, hl, h.1⟩
      · exact ih ys h.2 k v htail

/-- Completeness of the key loop of `deepEqual`. -/
theorem deepEqualFields_complete : ∀ (xs ys : List (String × JSVal)),
    (∀ (k : String) (v : JSVal), (k, v) ∈ xs →
      ∃ w, lookupKey k ys = some w ∧ deepEqual v w = true) →
    deepEqualFields xs ys = true := by
  intro xs
  induction xs with
  | nil => intro ys _; simp [deepEqualFields]
  | cons kv rest ih =>
    intro ys h
    rcases kv with ⟨k', v'⟩
    rcases h k' v' (List.mem_cons_self _ _) with ⟨w, hw, hde⟩
    simp only [deepEqualFields, hw, Bool.and_eq_true]
    exact ⟨hde, ih ys fun k v hm => h k v (List.mem_cons_of_mem _ hm)⟩

/-- Unfolding `deepEqual` on two object values: `Object.is` is reference
equality there (false for the two separately constructed values), so the
key-count check and the key loop decide the outcome. -/
theorem deepEqual_obj_obj (xs ys : List (String × JSVal)) :
    deepEqual (.obj xs) (.obj ys)
      = if (objKeys xs).length = (objKeys ys).length then deepEqualFields xs ys
        else false := by
  simp [deepEqual, objectIs]

/-- C8: for two non-null objects with duplicate-free own keys (as
JavaScript objects always are), `deepEqual` returns true exactly when they
have the same own-key set and recursively deep-equal values for each key
(first conjunct); when either side is not an object, `deepEqual` coincides
with identity-equal `Object.is` (second conjunct); and the spec's two
examples: `deepEqual({a:1,b:{c:2}}, {a:1,b:{c:2}})` passes while
`deepEqual({a:1}, {a:1,b:2})` fails on the key-count mismatch (last two
conjuncts). -/
theorem deepEqual_structural_equality :
    (∀ (xs ys : List (String × JSVal)), (objKeys xs).Nodup → (objKeys ys).Nodup →
      (deepEqual (.obj xs) (.obj ys) = true ↔
        ((∀ k, k ∈ objKeys xs ↔ k ∈ objKeys ys)
         ∧ ∀ (k : String) (v w : JSVal), lookupKey k xs = some v →
             lookupKey k ys = some w → deepEqual v w = true)))
    ∧ (∀ a b : JSVal, ((∀ l, a ≠ .obj l) ∨ (∀ l, b ≠ .obj l)) →
        deepEqual a b = objectIs a b)
    ∧ deepEqual (.obj [("a", .num 1), ("b", .obj [("c", .num 2)])])
        (.obj [("a", .num 1), ("b", .obj [("c", .num 2)])]) = true
    ∧ deepEqual (.obj [("a", .num 1)]) (.obj [("a", .num 1), ("b", .num 2)]) = false := by
  refine ⟨?_, ?_, ?_, ?_⟩
  · intro xs ys hxs hys
    constructor
    · intro h
      rw [deepEqual_obj_obj] at h
      by_cases hlen : (objKeys xs).length = (objKeys ys).length
      case neg => rw [if_neg hlen] at h; exact absurd h (by simp)
      rw [if_pos hlen] at h
      constructor
      · have hsub : objKeys xs ⊆ objKeys ys := by
          intro k hk
          rcases List.mem_map.mp hk with ⟨⟨k', v⟩, hmem, hfst⟩
          subst hfst
          rcases deepEqualFields_sound xs ys h k' v hmem with ⟨w, hw, _⟩
          exact (lookupKey_isSome_iff ys k').mp (by rw [hw]; rfl)
        have hfin : (objKeys xs).toFinset = (objKeys ys).toFinset := by
          apply Finset.eq_of_subset_of_card_le
          · intro k hk
            exact List.mem_toFinset.mpr (hsub (List.mem_toFinset.mp hk))
          · rw [List.toFinset_card_of_nodup hxs, List.toFinset_card_of_nodup hys]
            omega
        intro k
        rw [← List.mem_toFinset, ← List.mem_toFinset, hfin]
      · intro k v w h1 h2
        rcases deepEqualFields_sound xs ys h k v (lookupKey_mem xs k v h1) with ⟨w', hw', hde⟩
        rw [h2] at hw'
        injection hw' with hww
        rw [← hww] at hde
        exact hde
    · intro ⟨hk, hv⟩
      have hfin : (objKeys xs).toFinset = (objKeys ys).toFinset := by
        ext k
        rw [List.mem_toFinset, List.mem_toFinset]
        exact hk k
      have hlen : (objKeys xs).length = (objKeys ys).length := by
        rw [← List.toFinset_card_of_nodup hxs, ← List.toFinset_card_of_nodup hys, hfin]
      rw [deepEqual_obj_obj, if_pos hlen]
      apply deepEqualFields_complete
      intro k v hmem
      have h1 : lookupKey k xs = some v := mem_lookupKey_nodup xs k v hxs hmem
      have hkx : k ∈ objKeys xs := List.mem_map.mpr ⟨(k, v), hmem, rfl⟩
      rcases Option.isSome_iff_exists.mp ((lookupKey_isSome_iff ys k).mpr ((hk k).mp hkx))
        with ⟨w, hw⟩
      exact ⟨w, hw, hv k v w h1 hw⟩
  · intro a b h
    cases a <;> cases b <;>
      (try (rcases h with h | h <;> exact absurd rfl (h _))) <;>
      simp [deepEqual, objectIs, beq_eq_decide]
  · simp [deepEqual, deepEqualFields, objectIs, objKeys, lookupKey]
  · simp [deepEqual, deepEqualFields, objectIs, objKeys, lookupKey]

/-- Witness for C8: the characterization applied to two singleton objects
with duplicate-free keys proves their deep equality, and the
primitive case applied to two equal numbers. -/
theorem deepEqual_structural_equality_witness :
    deepEqual (JSVal.obj [("a", JSVal.num 1)]) (JSVal.obj [("a", JSVal.num 1)]) = true
    ∧ deepEqual (JSVal.num 3) (JSVal.num 3) = objectIs (JSVal.num 3) (JSVal.num 3) := by
  constructor
  · apply (deepEqual_structural_equality.1 [("a", JSVal.num 1)] [("a", JSVal.num 1)]
      (by simp [objKeys]) (by simp [objKeys])).mpr
    refine ⟨fun k => Iff.rfl, ?_⟩
    intro k v w h1 h2
    simp only [lookupKey] at h1 h2
    by_cases hk : "a" = k
    · rw [if_pos hk] at h1 h2
      injection h1 with h1
      injection h2 with h2
      rw [← h1, ← h2]
      simp [deepEqual, objectIs]
    · rw [if_neg hk] at h1
      exact absurd h1 (by simp)
  · exact deepEqual_structural_equality.2.1 (JSVal.num 3) (JSVal.num 3)
      (Or.inl fun l h => JSVal.noConfusion h)

/-- `runTest` labels its result with the test's name on every path. -/
theorem runTest_name {σ : Type} (clock : σ → Nat) (bE aE : List (Action σ))
    (t : Test σ) (s : σ) : ((runTest clock bE aE t s).2).name = t.name := by
  rcases h1 : runHooks bE s with ⟨s1, e1⟩
  cases e1 with
  | some e => simp [runTest, runTestCatch, h1]
  | none =>
    rcases h2 : t.fn s1 with ⟨s2, e2⟩
    cases e2 with
    | some e => simp [runTest, runTestCatch, h1, h2]
    | none =>
      rcases h3 : runHooks aE s2 with ⟨s3, e3⟩
      cases e3 with
      | some e => simp [runTest, runTestCatch, h1, h2, h3]
      | none => simp [runTest, runTestCatch, h1, h2, h3]

/-- The names produced by the direct-tests loop, in order: skipped tests
contribute their skip record, only-omitted tests contribute nothing, the
rest contribute their run result. -/
theorem runTests_names {σ : Type} (clock : σ → Nat) (bE aE : List (Action σ))
    (ho : Bool) : ∀ (ts : List (Test σ)) (s : σ),
    ((runTests clock bE aE ho ts s).2).map TestResult.name
      = ts.filterMap (fun t =>
          if t.skip then some t.name
          else if ho && !t.only then none
          else some t.name) := by
  intro ts
  induction ts with
  | nil => intro s; simp [runTests]
  | cons t ts ih =>
    intro s
    simp only [runTests, List.filterMap_cons]
    by_cases h1 : t.skip
    · simp [h1, ih]
    · by_cases h2 : ho && !t.only
      · simp [h1, h2, ih]
      · simp [h1, h2, ih, runTest_name]

/-- A successful `runSuite` labels its SuiteResult with the composed
name. -/
theorem runSuite_ok_name {σ : Type} (clock : σ → Nat) (su : Suite σ)
    (pn : String) (s s' : σ) (r : SuiteResult)
    (h : runSuite clock su pn s = (s', Except.ok r)) :
    r.name = (if pn = "" then Suite.name su else pn ++ " > " ++ Suite.name su) := by
  cases su with
  | mk nm ts bE aE bA aA cs sk onl =>
    simp only [runSuite] at h
    rcases h1 : runHooks bA s with ⟨s1, e1⟩
    rw [h1] at h
    cases e1 with
    | some e => simp at h
    | none =>
      dsimp only at h
      rcases h2 : runNested clock (hasOnlyFlags ts cs)
          (if pn = "" then nm else pn ++ " > " ++ nm) cs
          (runTests clock bE aE (hasOnlyFlags ts cs) ts s1).1 with ⟨s3, nrs, e3⟩
      rw [h2] at h
      cases e3 with
      | some e => simp at h
      | none =>
        dsimp only at h
        rcases h3 : runHooks aA s3 with ⟨s4, e4⟩
        rw [h3] at h
        cases e4 with
        | some e => simp at h
        | none =>
          dsimp only at h
          simp only [Prod.mk.injEq, Except.ok.injEq] at h
          rw [← h.2]
          simp [Suite.name]

/-- Strong induction on the suite tree: a successful run's flattened
result-name list is exactly the spec-side declaration-order list, both for
one suite and for the nested-suites loop. -/
theorem runSuite_names_strong {σ : Type} (clock : σ → Nat) : ∀ n : Nat,
    (∀ su : Suite σ, sizeOf su ≤ n → ∀ (pn : String) (s s' : σ) (r : SuiteResult),
      runSuite clock su pn s = (s', Except.ok r) →
      r.tests.map TestResult.name = specFlattenedNames su)
    ∧ (∀ cs : List (Suite σ), sizeOf cs ≤ n →
        ∀ (ho : Bool) (fn : String) (s s' : σ) (rs : List TestResult),
      runNested clock ho fn cs s = (s', rs, none) →
      rs.map TestResult.name = specFlattenedNamesList ho cs) := by
  intro n
  induction n with
  | zero =>
    constructor
    · intro su hsu
      exfalso
      cases su
      simp only [Suite.mk.sizeOf_spec] at hsu
      omega
    · intro cs hcs
      exfalso
      cases cs <;> simp only [List.nil.sizeOf_spec, List.cons.sizeOf_spec] at hcs <;> omega
  | succ n ih =>
    constructor
    · intro su hsu pn s s' r h
      cases su with
      | mk nm ts bE aE bA aA cs sk onl =>
        have hcs : sizeOf cs ≤ n := by
          simp [Suite.mk.sizeOf_spec] at hsu
          omega
        simp only [runSuite] at h
        rcases h1 : runHooks bA s with ⟨s1, e1⟩
        rw [h1] at h
        cases e1 with
        | some e => simp at h
        | none =>
          dsimp only at h
          rcases h2 : runNested clock (hasOnlyFlags ts cs)
              (if pn = "" then nm else pn ++ " > " ++ nm) cs
              (runTests clock bE aE (hasOnlyFlags ts cs) ts s1).1 with ⟨s3, nrs, e3⟩
          rw [h2] at h
          cases e3 with
          | some e => simp at h
          | none =>
            dsimp only at h
            rcases h3 : runHooks aA s3 with ⟨s4, e4⟩
            rw [h3] at h
            cases e4 with
            | some e => simp at h
            | none =>
              dsimp only at h
              simp only [Prod.mk.injEq, Except.ok.injEq] at h
              rw [← h.2]
              simp only [List.map_append, runTests_names]
              rw [ih.2 cs hcs (hasOnlyFlags ts cs)
                (if pn = "" then nm else pn ++ " > " ++ nm) _ s3 nrs h2]
              simp [specFlattenedNames]
    · intro cs hcs ho fn s s' rs h
      cases cs with
      | nil =>
        simp only [runNested, Prod.mk.injEq] at h
        rw [← h.2.1]
        simp [specFlattenedNamesList]
      | cons c cs' =>
        have hc : sizeOf c ≤ n := by
          simp [List.cons.sizeOf_spec] at hcs
          omega
        have hcs' : sizeOf cs' ≤ n := by
          simp [List.cons.sizeOf_spec] at hcs
          omega
        simp only [runNested] at h
        by_cases hsk : Suite.skip c
        · rw [if_pos hsk] at h
          rw [ih.2 cs' hcs' ho fn s s' rs h]
          simp [specFlattenedNamesList, hsk]
        · rw [if_neg hsk] at h
          by_cases hon : ho && !Suite.only c
          · rw [if_pos hon] at h
            rw [ih.2 cs' hcs' ho fn s s' rs h]
            simp [specFlattenedNamesList, hsk, hon]
          · rw [if_neg hon] at h
            rcases h4 : runSuite clock c fn s with ⟨s1, res⟩
            rw [h4] at h
            cases res with
            | error e => simp at h
            | ok r0 =>
              dsimp only at h
              rcases h5 : runNested clock ho fn cs' s1 with ⟨s2, rs2, e2⟩
              rw [h5] at h
              dsimp only at h
              simp only [Prod.mk.injEq] at h
              rcases h with ⟨hA, hB, hC⟩
              rw [hC] at h5
              rw [← hB, List.map_append]
              rw [ih.1 c hc fn s s1 r0 h4]
              rw [ih.2 cs' hcs' ho fn s1 s2 rs2 h5]
              simp [specFlattenedNamesList, hsk, hon]

/-- C2: the flattened TestResult list of every successful suite run lists
the suite's direct tests in declaration order followed by the flattened
results of each non-omitted direct child suite in declaration order
(`specFlattenedNames`, first conjunct), and `runAllTests` yields exactly
one SuiteResult per non-skipped root suite in registration order — nested
suites produce no top-level SuiteResult of their own (second conjunct). -/
theorem flattened_results_preserve_declaration_order :
    (∀ (σ : Type) (clock : σ → Nat) (su : Suite σ) (pn : String) (s s' : σ)
        (r : SuiteResult),
      runSuite clock su pn s = (s', Except.ok r) →
      r.tests.map TestResult.name = specFlattenedNames su)
    ∧ (∀ (σ : Type) (clock : σ → Nat) (roots : List (Suite σ)) (s s' : σ)
        (rs : List SuiteResult),
      runAllTests clock roots s = (s', Except.ok rs) →
      rs.map SuiteResult.name = (roots.filter fun c => !Suite.skip c).map Suite.name) := by
  constructor
  · intro σ clock su pn s s' r h
    exact (runSuite_names_strong clock (sizeOf su)).1 su le_rfl pn s s' r h
  · intro σ clock roots
    induction roots with
    | nil =>
      intro s s' rs h
      simp only [runAllTests, Prod.mk.injEq, Except.ok.injEq] at h
      rw [← h.2]
      simp
    | cons root rest ih =>
      intro s s' rs h
      simp only [runAllTests] at h
      by_cases hsk : Suite.skip root
      · rw [if_pos hsk] at h
        rw [ih s s' rs h]
        simp [List.filter_cons, hsk]
      · rw [if_neg hsk] at h
        rcases h1 : runSuite clock root "" s with ⟨s1, res⟩
        rw [h1] at h
        cases res with
        | error e => simp at h
        | ok r0 =>
          dsimp only at h
          rcases h2 : runAllTests clock rest s1 with ⟨s2, res2⟩
          rw [h2] at h
          cases res2 with
          | error e => simp at h
          | ok results =>
            dsimp only at h
            simp only [Prod.mk.injEq, Except.ok.injEq] at h
            rw [← h.2]
            simp only [List.filter_cons, hsk, List.map_cons]
            have hname : r0.name = Suite.name root := by
              have := runSuite_ok_name clock root "" s s1 r0 h1
              simpa using this
            rw [hname, ih s1 s2 results h2]
            simp

/-- Witness for C2: a suite "Math" with a passing test, a skipped test and
a nested child suite: the flattened names come out in declaration order
with the child's results spliced after the direct tests; and a run with a
skipped root and a live root yields exactly one SuiteResult, for the
non-skipped root. -/
theorem flattened_results_preserve_declaration_order_witness :
    ([⟨"adds", true, none, 0, []⟩, ⟨"sk", true, none, 0, []⟩,
      ⟨"c1", true, none, 0, []⟩] : List TestResult).map TestResult.name
      = specFlattenedNames (Suite.mk "Math"
          [⟨"adds", incAction, false, false⟩, ⟨"sk", okAction, true, false⟩]
          [] [] [] []
          [Suite.mk "C" [⟨"c1", incAction, false, false⟩] [] [] [] [] [] false false]
          false false)
    ∧ ([(⟨"A", [], 0, 0, 0, 0⟩ : SuiteResult)]).map SuiteResult.name
      = (([Suite.mk "Z" [] [] [] [] [] [] true false,
           Suite.mk "A" [] [] [] [] [] [] false false] : List (Suite Nat)).filter
          fun c => !Suite.skip c).map Suite.name := by
  constructor
  · have hrun : runSuite clock0 (Suite.mk "Math"
        [⟨"adds", incAction, false, false⟩, ⟨"sk", okAction, true, false⟩]
        [] [] [] []
        [Suite.mk "C" [⟨"c1", incAction, false, false⟩] [] [] [] [] [] false false]
        false false) "" 0
        = (2, Except.ok ⟨"Math",
            [⟨"adds", true, none, 0, []⟩, ⟨"sk", true, none, 0, []⟩,
             ⟨"c1", true, none, 0, []⟩], 3, 0, 1, 0⟩) := by
      simp [runSuite, runNested, runTests, runTest, runHooks, runTestCatch,
        hasOnlyFlags, clock0, incAction, okAction, Suite.skip, Suite.only]
    exact flattened_results_preserve_declaration_order.1 Nat clock0 _ "" 0 2 _ hrun
  · have hall : runAllTests clock0
        [Suite.mk "Z" [] [] [] [] [] [] true false,
         Suite.mk "A" [] [] [] [] [] [] false false] 0
        = (0, Except.ok [⟨"A", [], 0, 0, 0, 0⟩]) := by
      simp [runAllTests, runSuite, runNested, runTests, runHooks,
        hasOnlyFlags, clock0, Suite.skip]
    exact flattened_results_preserve_declaration_order.2 Nat clock0 _ 0 0 _ hall

end MCPTest
